import Mathlib

/-
  Verification development for the `jc` repository's `git log` parser
  (src/jc/parsers/git_log.py).

  The parser is embedded shallowly: Python strings become lists of
  characters, the per-line loop of `parse` becomes a fold over the split
  lines, and Python exceptions (IndexError on `line_list[1]` /
  `values[1]`, TypeError on subscripting a failed regex match, KeyError on
  `output_line['stats']`) become `Option.none` results.

  A subtlety of the source is modelled explicitly: in the "oneline"
  branch the local variable `output_line` is appended to `raw_output`
  and NOT reset, so the list entry and the variable alias the same
  Python dict; later header lines mutate the already-appended record,
  and the trailing flush appends the same dict a second time.  The
  embedding therefore keeps the output as a list of entries that are
  either detached record values or references to the current
  `output_line`, resolved to values when the variable is rebound or when
  `parse` returns.
-/

namespace GitLog

/-- Python strings are modelled as lists of characters. -/
abbrev Str := List Char

/-- Convert a Lean string literal to the character-list model. -/
def strL (s : String) : Str := s.toList

/-- Characters the Python `str` methods (`split`, `strip`, `isspace`)
treat as whitespace, restricted to the ASCII range the parser meets. -/
def isSpaceChar (c : Char) : Bool :=
  c == ' ' || c == '\t' || c == '\n' || c == '\r' || c.toNat == 11 || c.toNat == 12

/-- Accumulator for `splitlines`: `acc` holds the current line reversed. -/
def splitlinesGo : Str → Str → List Str
  | [], acc => if acc.isEmpty then [] else [acc.reverse]
  | '\r' :: '\n' :: rest, acc => acc.reverse :: splitlinesGo rest []
  | '\n' :: rest, acc => acc.reverse :: splitlinesGo rest []
  | '\r' :: rest, acc => acc.reverse :: splitlinesGo rest []
  | c :: rest, acc => splitlinesGo rest (c :: acc)

/-- Python `str.splitlines`: lines are ended by a terminator
(`\n`, `\r`, `\r\n` here; the exotic unicode terminators do not occur
in `git log` output), and a final unterminated fragment is kept only if
it is non-empty, so `""` gives `[]` and `"a\n"` gives `["a"]`. -/
def splitlines (s : Str) : List Str := splitlinesGo s []

/-- Does `s` start with `p`?  (Python `str.startswith`.) -/
def strStarts : Str → Str → Bool
  | [], _ => true
  | _ :: _, [] => false
  | p :: ps, c :: cs => p == c && strStarts ps cs

/-- Python `needle in s` substring test. -/
def containsSub (needle : Str) : Str → Bool
  | [] => strStarts needle []
  | c :: rest => strStarts needle (c :: rest) || containsSub needle rest

/-- Python `line.split(maxsplit=1)` with the default whitespace
separator: leading whitespace is skipped, the first token is the maximal
run of non-whitespace, the separating whitespace run is consumed, and
the remainder is returned verbatim; no empty fields are produced. -/
def pySplit1 (s : Str) : List Str :=
  let s1 := s.dropWhile isSpaceChar
  if s1.isEmpty then []
  else
    let tok := s1.takeWhile (fun c => !isSpaceChar c)
    let rest := (s1.dropWhile (fun c => !isSpaceChar c)).dropWhile isSpaceChar
    if rest.isEmpty then [tok] else [tok, rest]

/-- Python `s.rsplit(maxsplit=1)`: the mirror image of `pySplit1`. -/
def pyRsplit1 (s : Str) : List Str :=
  let r := s.reverse.dropWhile isSpaceChar
  if r.isEmpty then []
  else
    let tokR := r.takeWhile (fun c => !isSpaceChar c)
    let before := (r.dropWhile (fun c => !isSpaceChar c)).dropWhile isSpaceChar
    if before.isEmpty then [tokR.reverse] else [before.reverse, tokR.reverse]

/-- Python `str.strip()` with no argument: remove leading and trailing
whitespace. -/
def pyStrip (s : Str) : Str :=
  ((s.dropWhile isSpaceChar).reverse.dropWhile isSpaceChar).reverse

/-- Python `str.strip(t)` for a single-character argument: remove every
leading and trailing occurrence of `t`. -/
def stripChar (t : Char) (s : Str) : Str :=
  ((s.dropWhile (fun c => c == t)).reverse.dropWhile (fun c => c == t)).reverse

/-- Python `'\n'.join(lines)`. -/
def joinNL : List Str → Str
  | [] => []
  | [x] => x
  | x :: y :: rest => x ++ '\n' :: joinNL (y :: rest)

/-- Lowercase hexadecimal digit, the character class `[0-9]|[a-f]` of
`_is_commit_hash`'s pattern. -/
def hexLower (c : Char) : Bool :=
  (48 ≤ c.toNat && c.toNat ≤ 57) || (97 ≤ c.toNat && c.toNat ≤ 102)

/-- Python `re.match(r'([0-9]|[a-f])+', s)` viewed as a boolean: the
unanchored match succeeds exactly when the string begins with at least
one character of the class. -/
def matchHexPlusStart : Str → Bool
  | [] => false
  | c :: _ => hexLower c

/-- Embedding of `_is_commit_hash` from src/jc/parsers/git_log.py:
length must be 40 and `re.match` of `([0-9]|[a-f])+` must succeed. -/
def _is_commit_hash (hash_string : Str) : Bool :=
  if hash_string.length ≠ 40 then false
  else if matchHexPlusStart hash_string then true
  else false

/-- The `stats` object built by the summary branch of `parse`.  Note the
type of `files`: the source appends the whole pending `file_list` (a
Python list) as a single element, so the elements of `files` are lists
of paths, not paths. -/
structure Stats where
  files_changed : Str
  insertions : Str
  deletions : Str
  files : List (List Str)
deriving Repr, DecidableEq

/-- The `output_line` dict of `parse`.  A field is `some v` exactly when
the corresponding key is present in the dict. -/
structure Record where
  commit : Option Str := none
  merge : Option Str := none
  author : Option Str := none
  author_email : Option Str := none
  date : Option Str := none
  commit_by : Option Str := none
  commit_by_email : Option Str := none
  commit_by_date : Option Str := none
  message : Option Str := none
  stats : Option Stats := none
deriving Repr, DecidableEq

/-- The empty dict `{}`. -/
def emptyRecord : Record := {}

/-- Python dict truthiness `if output_line:`: at least one key present. -/
def Record.nonEmpty (r : Record) : Bool :=
  r.commit.isSome || r.merge.isSome || r.author.isSome || r.author_email.isSome ||
  r.date.isSome || r.commit_by.isSome || r.commit_by_email.isSome ||
  r.commit_by_date.isSome || r.message.isSome || r.stats.isSome

/-- The Python dict key strings present on a record (the source stores
the merge line under the key `'merge'`; insertion order of the dict is
not modelled, only key membership). -/
def Record.keys (r : Record) : List String :=
  (if r.commit.isSome then ["commit"] else []) ++
  (if r.merge.isSome then ["merge"] else []) ++
  (if r.author.isSome then ["author"] else []) ++
  (if r.author_email.isSome then ["author_email"] else []) ++
  (if r.date.isSome then ["date"] else []) ++
  (if r.commit_by.isSome then ["commit_by"] else []) ++
  (if r.commit_by_email.isSome then ["commit_by_email"] else []) ++
  (if r.commit_by_date.isSome then ["commit_by_date"] else []) ++
  (if r.message.isSome then ["message"] else []) ++
  (if r.stats.isSome then ["stats"] else [])

/-- One slot of `raw_output`: either a detached record value, or a
reference to the dict currently bound to `output_line` (created by
`raw_output.append(output_line)` when the variable is not rebound
afterwards, as in the oneline branch). -/
inductive Entry where
  | det : Record → Entry
  | curRef : Entry
deriving Repr, DecidableEq

/-- Rebinding `output_line` detaches every reference in `raw_output`
at the dict's current value `r`. -/
def freeze (es : List Entry) (r : Record) : List Entry :=
  es.map fun e => match e with | Entry.det x => Entry.det x | Entry.curRef => Entry.det r

/-- Read `raw_output` as record values, references resolving to the
current value `r` of `output_line`. -/
def resolveEntries (es : List Entry) (r : Record) : List Record :=
  es.map fun e => match e with | Entry.det x => x | Entry.curRef => r

/-- The local state of `parse`'s loop: `raw_output`, `output_line`,
`message_lines`, `file_list`. -/
structure PState where
  entries : List Entry
  output_line : Record
  message_lines : List Str
  file_list : List Str
deriving Repr, DecidableEq

/-- State at the top of `parse`: empty output, empty dict, empty buffers. -/
def initState : PState :=
  { entries := [], output_line := emptyRecord, message_lines := [], file_list := [] }

/-- The guard `line_list and _is_commit_hash(line_list[0])`. -/
def compactGuard (ll : List Str) : Bool :=
  match ll with
  | t :: _ => _is_commit_hash t
  | [] => false

/-- Match a literal at the front of `s`, returning the rest. -/
def matchLit (lit s : Str) : Option Str :=
  if strStarts lit s then some (s.drop lit.length) else none

/-- Regex `\d+`: maximal non-empty digit run and the rest. -/
def digits1 (s : Str) : Option (Str × Str) :=
  let d := s.takeWhile Char.isDigit
  if d.isEmpty then none else some (d, s.dropWhile Char.isDigit)

/-- Regex `\s+`: at least one whitespace character, consumed maximally. -/
def spaces1 (s : Str) : Option Str :=
  match s with
  | c :: rest => if isSpaceChar c then some (rest.dropWhile isSpaceChar) else none
  | [] => none

/-- Regex `\s`: exactly one whitespace character. -/
def oneSpace (s : Str) : Option Str :=
  match s with
  | c :: rest => if isSpaceChar c then some rest else none
  | [] => none

/-- Functional reading of `re.match` for the summary-line pattern
`\s(?P<files>\d+)\s+(files? changed),\s+(?P<insertions>\d+)\s`
`(insertions?\(\+\))?(,\s+)?(?P<deletions>\d+)?(\s+deletions?\(\-\))?`
of src/jc/parsers/git_log.py line 200.  The walk is deterministic:
digit runs are always followed by mandatory whitespace (the classes are
disjoint, so greedy matching never needs to backtrack), and everything
after the insertions count and its single `\s` is optional, so the
greedy first choice of each optional group is final.  Returns the
captured `files`, `insertions` and optional `deletions` groups. -/
def changesMatch (line : Str) : Option (Str × Str × Option Str) := do
  let s0 ← oneSpace line
  let (files, s1) ← digits1 s0
  let s2 ← spaces1 s1
  let s3 ← matchLit (strL ("files changed")) s2 <|> matchLit (strL ("file changed")) s2
  let s4 ← matchLit (strL (",")) s3
  let s5 ← spaces1 s4
  let (ins, s6) ← digits1 s5
  let s7 ← oneSpace s6
  let s8 := ((matchLit (strL ("insertions(+)")) s7) <|> (matchLit (strL ("insertion(+)")) s7)).getD s7
  let s9 := ((matchLit (strL (",")) s8).bind (fun t => spaces1 t)).getD s8
  match digits1 s9 with
  | some (del, _) => some (files, ins, some del)
  | none => some (files, ins, none)

/-- The seal mutations applied to `output_line` inside
`if output_line:` (source lines 146-151 and 212-217): join pending
message lines into `message`, and append the pending `file_list` as one
element of `stats['files']`.  When `file_list` is non-empty but no
summary line ever set `stats`, the subscript `output_line['stats']`
raises KeyError, modelled as `none`. -/
def applySeal (st : PState) : Option Record :=
  let r0 := st.output_line
  let r1 := if st.message_lines.isEmpty then r0
            else { r0 with message := some (joinNL st.message_lines) }
  if st.file_list.isEmpty then some r1
  else
    match r1.stats with
    | some s0 => some { r1 with stats := some { s0 with files := s0.files ++ [st.file_list] } }
    | none => none

/-- One iteration of the `for line in data.splitlines():` loop of
`parse`, branch for branch in source order.  `none` models a Python
exception escaping the loop (IndexError from `line_list[1]` or
`values[1]`, TypeError from subscripting a failed `re.match`, KeyError
from `output_line['stats']`). -/
def processLine (st : PState) (line : Str) : Option PState :=
  let ll := pySplit1 line
  -- oneline style: build {commit, message} and append it; `output_line`
  -- is not reset, so the appended entry stays aliased to the variable
  if compactGuard ll then
    match ll with
    | [t, m] =>
      some { entries := freeze st.entries st.output_line ++ [Entry.curRef],
             output_line := { commit := some t, message := some m },
             message_lines := st.message_lines, file_list := st.file_list }
    | _ => none
  else if strStarts (strL ("commit ")) line then
    if st.output_line.nonEmpty then
      match applySeal st, ll with
      | some r, [_, rest] =>
        some { entries := freeze st.entries r ++ [Entry.det r],
               output_line := { emptyRecord with commit := some rest },
               message_lines := [], file_list := [] }
      | _, _ => none
    else
      match ll with
      | [_, rest] =>
        some { st with output_line := { st.output_line with commit := some rest } }
      | _ => none
  else if strStarts (strL ("Merge: ")) line then
    match ll with
    | [_, rest] =>
      some { st with output_line := { st.output_line with merge := some rest } }
    | _ => none
  else if strStarts (strL ("Author: ")) line then
    match ll with
    | [_, rest] =>
      match pyRsplit1 rest with
      | [name, mail] =>
        some { st with output_line := { st.output_line with
                 author := some name,
                 author_email := some (stripChar '>' (stripChar '<' mail)) } }
      | _ => none
    | _ => none
  else if strStarts (strL ("Date: ")) line then
    match ll with
    | [_, rest] =>
      some { st with output_line := { st.output_line with date := some rest } }
    | _ => none
  else if strStarts (strL ("AuthorDate: ")) line then
    match ll with
    | [_, rest] =>
      some { st with output_line := { st.output_line with date := some rest } }
    | _ => none
  else if strStarts (strL ("CommitDate: ")) line then
    match ll with
    | [_, rest] =>
      some { st with output_line := { st.output_line with commit_by_date := some rest } }
    | _ => none
  else if strStarts (strL ("Commit: ")) line then
    match ll with
    | [_, rest] =>
      match pyRsplit1 rest with
      | [name, mail] =>
        some { st with output_line := { st.output_line with
                 commit_by := some name,
                 commit_by_email := some (stripChar '>' (stripChar '<' mail)) } }
      | _ => none
    | _ => none
  else if strStarts (strL ("    ")) line then
    some { st with message_lines := st.message_lines ++ [pyStrip line] }
  else if strStarts (strL (" ")) line && !containsSub (strL ("changed, ")) line then
    some { st with file_list := st.file_list ++ [pyStrip (line.takeWhile (fun c => !(c == '|')))] }
  else if strStarts (strL (" ")) line && containsSub (strL ("changed, ")) line then
    match changesMatch line with
    | some (files, ins, del) =>
      some { st with output_line := { st.output_line with stats := some {
               files_changed := if files.isEmpty then strL ("0") else files,
               insertions := if ins.isEmpty then strL ("0") else ins,
               deletions := match del with
                            | some d => if d.isEmpty then strL ("0") else d
                            | none => strL ("0"),
               files := [] } } }
    | none => none
  else
    some st

/-- Fold `processLine` over the lines; an exception aborts the parse. -/
def parseLines : PState → List Str → Option PState
  | st, [] => some st
  | st, l :: ls =>
    match processLine st l with
    | some st2 => parseLines st2 ls
    | none => none

/-- The trailing `if output_line:` flush of `parse` (source lines
212-219) followed by reading `raw_output`: the final append leaves the
entry aliased to `output_line`, and every reference resolves to the
dict's value at return time. -/
def finalize (st : PState) : Option (List Record) :=
  if st.output_line.nonEmpty then
    match applySeal st with
    | some r => some (resolveEntries st.entries r ++ [r])
    | none => none
  else
    some (resolveEntries st.entries st.output_line)

/-- Modelled from the spec: `jc.utils.has_data` is code of this
repository that is not under src/; per spec section 6, "Empty input (no
non-whitespace content) yields an empty sequence", so the guard holds
exactly when some character of the input is not whitespace. -/
def hasData (data : Str) : Bool := data.any (fun c => !isSpaceChar c)

/-- Embedding of `_process`: the source returns its argument unchanged. -/
def _process (proc_data : List Record) : List Record := proc_data

set_option linter.unusedVariables false in
/-- Embedding of `parse(data, raw, quiet)` from src/jc/parsers/git_log.py.
`jc.utils.compatibility` only emits a warning controlled by `quiet` and
`jc.utils.input_type_check` only rejects non-string arguments, which the
type of `data` already enforces; neither affects the result.  `none`
models the call raising a Python exception. -/
def parse (data : Str) (raw : Bool := false) (quiet : Bool := false) : Option (List Record) :=
  let lines := if hasData data then splitlines data else []
  match parseLines initState lines with
  | some st =>
    match finalize st with
    | some out => some (if raw then out else _process out)
    | none => none
  | none => none

/-! ## Concrete inputs and records used by the claim theorems -/

/-- A 40-character all-hex token, usable as a full commit hash. -/
def hash40a : Str := strL ("aaaaaaaaaaaaaaaaaaaaaaaaaaaaaaaaaaaaaaaa")

/-- The record built from the compact line `"<40 a's> fix bug"`. -/
def c3Rec : Record := { commit := some hash40a, message := some (strL ("fix bug")) }

/-- The compact record for `"<40 a's> msg"` after a later `Merge: a b`
line has mutated it through the alias. -/
def c4Rec : Record :=
  { commit := some hash40a, message := some (strL ("msg")), merge := some (strL ("a b")) }

/-- The compact record for `"<40 a's> msg"`. -/
def c5Rec : Record := { commit := some hash40a, message := some (strL ("msg")) }

/-- The record parse builds from the orphan line `"Merge: a b"`. -/
def c2Rec : Record := { merge := some (strL ("a b")) }

/-- The record for `"commit abc"` followed by the message line
`"      hi  "` (four-space indentation, two further spaces, trailing
spaces). -/
def c6Rec : Record := { commit := some (strL ("abc")), message := some (strL ("hi")) }

/-- Stats built from `" 1 file changed, 2 deletions(-)"`: the count 2
lands in the insertions group. -/
def c7Stats : Stats :=
  { files_changed := strL ("1"), insertions := strL ("2"), deletions := strL ("0"), files := [] }

/-- Stats built from `" 3 files changed, 10 insertions(+)"`. -/
def c7StatsIns : Stats :=
  { files_changed := strL ("3"), insertions := strL ("10"), deletions := strL ("0"), files := [] }

/-- Stats after sealing with the pending file list `["x.py"]`: the whole
list is appended as one element of `files`. -/
def c8Stats : Stats :=
  { files_changed := strL ("1"), insertions := strL ("2"), deletions := strL ("0"),
    files := [[strL ("x.py")]] }

/-- A 40-character token that starts with a hex digit but is not made of
hex digits. -/
def c9Tok : Str := strL ("azzzzzzzzzzzzzzzzzzzzzzzzzzzzzzzzzzzzzzz")

/-- The record built from `"commit abc"` and `"Merge: d e"`. -/
def c10Rec : Record := { commit := some (strL ("abc")), merge := some (strL ("d e")) }

/-! ## Claim theorems: counterexamples and code divergences -/

/-- C1 counterexample: the line `"commit "` is classifiable (it starts a
record boundary) yet `parse` raises IndexError on `line_list[1]` instead
of returning a record sequence, so parse is not exception-free. -/
theorem c1_counterexample : parse (strL ("commit ")) = none := by decide

/-- C2 counterexample: on the input `"Merge: a b"` the merge header is
folded into the empty open dict and the end-of-input flush emits it, so
parse outputs a record whose commit field is absent. -/
theorem c2_counterexample :
    parse (strL ("Merge: a b")) = some [c2Rec] ∧ c2Rec.commit = none := by decide

/-- C3: on the single compact line `"<40 a's> fix bug"` the code emits
the record twice — `output_line` is appended in the oneline branch and,
never having been reset, is appended again by the end-of-input flush —
contradicting the claim that exactly one record with no duplicate is
returned. -/
theorem c3_code_divergence :
    parse (strL ("aaaaaaaaaaaaaaaaaaaaaaaaaaaaaaaaaaaaaaaa fix bug")) =
      some [c3Rec, c3Rec] := by decide

/-- C4: after the compact record for `"<40 a's> msg"` is appended, the
following `"Merge: a b"` line mutates the very same dict through the
alias kept in `output_line`, and the flush appends it a second time, so
the sealed record gains a merge key: records are mutated after sealing
and compact records are not self-contained. -/
theorem c4_code_divergence :
    parse (strL ("aaaaaaaaaaaaaaaaaaaaaaaaaaaaaaaaaaaaaaaa msg\nMerge: a b")) =
      some [c4Rec, c4Rec] := by decide

/-- C5 counterexample: a compact line met while the record opened by
`"commit abc"` is still open does not seal that record — the output
contains only the compact record (twice, via the flush alias), and no
record with commit `"abc"` precedes it. -/
theorem c5_counterexample :
    parse (strL ("commit abc\naaaaaaaaaaaaaaaaaaaaaaaaaaaaaaaaaaaaaaaa msg")) =
      some [c5Rec, c5Rec] := by decide

/-- C6 counterexample: the message line `"      hi  "` (four-space
indentation plus two more leading spaces and trailing spaces) is
recorded as `"hi"` — `line.strip()` removes all surrounding whitespace —
not as `"  hi  "` with only the fixed four-space indentation removed. -/
theorem c6_counterexample :
    parse (strL ("commit abc\n      hi  ")) = some [c6Rec] ∧
    c6Rec.message ≠ some (strL ("  hi  ")) := by decide

/-- C7 counterexample: for the summary line
`" 1 file changed, 2 deletions(-)"`, which has no insertion clause, the
count 2 is captured by the insertions group and deletions defaults to
`"0"` — not insertions `"0"` with the count assigned to deletions as the
claim states. -/
theorem c7_counterexample :
    parse (strL ("commit a\n 1 file changed, 2 deletions(-)")) =
      some [{ commit := some (strL ("a")), stats := some c7Stats }] ∧
    c7Stats.insertions ≠ strL ("0") := by decide

/-- C7 amended: the first count after the `changed,` clause is always
captured as insertions whether or not an insertion clause follows, and
deletions is captured only when a second count follows, defaulting to
`"0"`: `" 3 files changed, 10 insertions(+)"` gives insertions `"10"`
and deletions `"0"`, and `" 1 file changed, 2 deletions(-)"` gives
insertions `"2"` and deletions `"0"`. -/
theorem c7_amended_stats_groups :
    parse (strL ("commit b\n 3 files changed, 10 insertions(+)")) =
      some [{ commit := some (strL ("b")), stats := some c7StatsIns }] ∧
    parse (strL ("commit b\n 1 file changed, 2 deletions(-)")) =
      some [{ commit := some (strL ("b")), stats := some c7Stats }] := by decide

/-- C8: at seal time the pending file-path buffer is appended as a
single element of `stats['files']` — producing the nested list
`[["x.py"]]`, not a flat path list as the claim and the parser's own
schema state — and when no summary line was seen the subscript
`output_line['stats']` raises KeyError instead of discarding the buffer
without error. -/
theorem c8_code_divergence :
    parse (strL ("commit abc\n x.py | 1 +\n 1 file changed, 2 insertions(+)")) =
      some [{ commit := some (strL ("abc")), stats := some c8Stats }] ∧
    parse (strL ("commit abc\n x.py | 1 +")) = none := by decide

/-- C9 counterexample: the 40-character token `"a"` followed by 39
`"z"`s is accepted by `_is_commit_hash` — the regex match is anchored
only at the start, so one leading hex digit suffices — even though the
token is not composed of hexadecimal digits. -/
theorem c9_counterexample :
    _is_commit_hash c9Tok = true ∧ c9Tok.length = 40 ∧ c9Tok.all hexLower = false := by decide

/-- C10 counterexample: after a `"Merge: "` line the record carries the
key `"merge"`, not `"merge_parents"`. -/
theorem c10_counterexample :
    parse (strL ("commit abc\nMerge: d e")) = some [c10Rec] ∧
    c10Rec.keys = ["commit", "merge"] ∧ "merge_parents" ∉ c10Rec.keys := by decide

/-! ## Helper lemmas on the line guards -/

/-- A line beginning with four spaces in particular begins with one. -/
lemma space_head_of_starts4 (line : Str) (h : strStarts (strL ("    ")) line = true) :
    ∃ rest, line = ' ' :: rest := by
  cases line with
  | nil => exact absurd h (by decide)
  | cons c cs =>
    have h' : ((' ' == c) && strStarts (strL ("   ")) cs) = true := h
    rw [Bool.and_eq_true] at h'
    have hce : ' ' = c := eq_of_beq h'.1
    exact ⟨cs, by rw [← hce]⟩

/-! ## C5 and C6: amended step behavior -/

/-- C5 amended: when a CompactCommit line arrives, the record currently
open in `output_line` is NOT sealed into the output — the compact step
only detaches entries already present (at the open record's current
value, for an aliased entry) and appends the compact record, so an open
record that was never appended before is discarded, not emitted ahead of
the compact record. -/
theorem c5_amended_compact_discards_open (st : PState) (line t m : Str)
    (h1 : pySplit1 line = [t, m]) (h2 : _is_commit_hash t = true) :
    processLine st line =
      some { entries := freeze st.entries st.output_line ++ [Entry.curRef],
             output_line := { commit := some t, message := some m },
             message_lines := st.message_lines, file_list := st.file_list } := by
  simp [processLine, h1, compactGuard, h2]

/-- A state with a record opened by `"commit abc"` still pending. -/
def c5St : PState :=
  { entries := [], output_line := { commit := some (strL ("abc")) },
    message_lines := [], file_list := [] }

/-- C5 witness: the amended compact step applied to the concrete open
state for `"commit abc"`: the open record vanishes. -/
theorem c5_witness :
    processLine c5St (strL ("aaaaaaaaaaaaaaaaaaaaaaaaaaaaaaaaaaaaaaaa msg")) =
      some { entries := [Entry.curRef],
             output_line := { commit := some hash40a, message := some (strL ("msg")) },
             message_lines := [], file_list := [] } :=
  c5_amended_compact_discards_open c5St _ hash40a (strL ("msg")) (by decide) (by decide)

/-- C6 amended: a message-role line (four-space indented, not shaped
like a compact commit) is buffered as `line.strip()` — ALL leading and
trailing whitespace removed, not just the four-space indentation — and
at seal time the buffered lines are joined with newlines in their
original order into the record's message. -/
theorem c6_amended_strip_and_join :
    (∀ (st : PState) (line : Str),
       strStarts (strL ("    ")) line = true →
       compactGuard (pySplit1 line) = false →
       processLine st line = some { st with message_lines := st.message_lines ++ [pyStrip line] }) ∧
    (∀ st : PState, st.file_list = [] → st.message_lines ≠ [] →
       applySeal st = some { st.output_line with message := some (joinNL st.message_lines) }) := by
  constructor
  · intro st line h1 h2
    obtain ⟨rest, rfl⟩ := space_head_of_starts4 line h1
    have g1 : strStarts (strL ("commit ")) (' ' :: rest) = false := rfl
    have g2 : strStarts (strL ("Merge: ")) (' ' :: rest) = false := rfl
    have g3 : strStarts (strL ("Author: ")) (' ' :: rest) = false := rfl
    have g4 : strStarts (strL ("Date: ")) (' ' :: rest) = false := rfl
    have g5 : strStarts (strL ("AuthorDate: ")) (' ' :: rest) = false := rfl
    have g6 : strStarts (strL ("CommitDate: ")) (' ' :: rest) = false := rfl
    have g7 : strStarts (strL ("Commit: ")) (' ' :: rest) = false := rfl
    simp [processLine, h2, g1, g2, g3, g4, g5, g6, g7, h1]
  · intro st hfl hml
    unfold applySeal
    rw [hfl]
    simp [List.isEmpty_iff, hml]

/-- A state holding one buffered message line for an open record. -/
def c6St : PState :=
  { entries := [], output_line := { commit := some (strL ("abc")) },
    message_lines := [strL ("line one")], file_list := [] }

/-- C6 witness: the amended message handling on the concrete line
`"    line two"` (right after buffered `"line one"`) and the concrete
seal producing the joined message. -/
theorem c6_witness :
    processLine c6St (strL ("    line two")) =
      some { c6St with message_lines := [strL ("line one"), strL ("line two")] } ∧
    applySeal { c6St with message_lines := [strL ("line one"), strL ("line two")] } =
      some { commit := some (strL ("abc")), message := some (strL ("line one\nline two")) } :=
  ⟨c6_amended_strip_and_join.1 c6St (strL ("    line two")) (by decide) (by decide),
   c6_amended_strip_and_join.2 _ (by decide) (by decide)⟩

/-! ## C9: amended classification rule -/

/-- C9 amended: `_is_commit_hash` accepts exactly the strings of length
40 whose FIRST character is a lowercase hexadecimal digit; the
composition of the remaining 39 characters is never inspected, because
the `re.match` is anchored only at the start. -/
theorem c9_amended_hash_classification :
    (∀ s : Str, s.length ≠ 40 → _is_commit_hash s = false) ∧
    (∀ (c : Char) (rest : Str), (c :: rest).length = 40 →
       _is_commit_hash (c :: rest) = hexLower c) := by
  constructor
  · intro s h
    simp [_is_commit_hash, h]
  · intro c rest h
    simp only [_is_commit_hash, h, ne_eq, not_true_eq_false, if_false, matchHexPlusStart]
    rcases Bool.eq_false_or_eq_true (hexLower c) with hc | hc <;> simp [hc]

/-- C9 witness: the amended rule evaluated at `'g'` (not a hex digit)
followed by 39 `'z'`s, and at a short string. -/
theorem c9_witness :
    _is_commit_hash ('g' :: strL ("zzzzzzzzzzzzzzzzzzzzzzzzzzzzzzzzzzzzzzz")) = hexLower 'g' ∧
    _is_commit_hash (strL ("abc")) = false :=
  ⟨c9_amended_hash_classification.2 'g' (strL ("zzzzzzzzzzzzzzzzzzzzzzzzzzzzzzzzzzzzzzz")) (by decide),
   c9_amended_hash_classification.1 (strL ("abc")) (by decide)⟩

/-! ## Line classification predicates used by the general theorems -/

/-- A line that opens (or atomically emits) a record: a compact
hash-led line or a `"commit "` boundary. -/
def isBoundaryLine (line : Str) : Bool :=
  compactGuard (pySplit1 line) || strStarts (strL ("commit ")) line

/-- A line that writes a field into the currently open dict: the header
prefixes and the summary-stats shape.  (Message and per-file lines only
touch the side buffers.) -/
def isHeaderLine (line : Str) : Bool :=
  strStarts (strL ("Merge: ")) line || strStarts (strL ("Author: ")) line ||
  strStarts (strL ("Date: ")) line || strStarts (strL ("AuthorDate: ")) line ||
  strStarts (strL ("CommitDate: ")) line || strStarts (strL ("Commit: ")) line ||
  (strStarts (strL (" ")) line && containsSub (strL ("changed, ")) line)

/-- No field-writing line occurs before the first boundary line. -/
def noOrphanHeaders : List Str → Bool
  | [] => true
  | l :: ls =>
    if isBoundaryLine l then true
    else if isHeaderLine l then false
    else noOrphanHeaders ls

/-- Per-line safety for the exception-freedom theorem: every
classifiable line carries the payload the code subscripts, summary
lines match the stats pattern, and per-file stat lines are excluded
altogether (a pending file list can make sealing raise KeyError). -/
def lineSafe (line : Str) : Bool :=
  if compactGuard (pySplit1 line) then (pySplit1 line).length == 2
  else if strStarts (strL ("commit ")) line then (pySplit1 line).length == 2
  else if strStarts (strL ("Merge: ")) line then (pySplit1 line).length == 2
  else if strStarts (strL ("Author: ")) line then
    match pySplit1 line with
    | [_, rest] => (pyRsplit1 rest).length == 2
    | _ => false
  else if strStarts (strL ("Date: ")) line then (pySplit1 line).length == 2
  else if strStarts (strL ("AuthorDate: ")) line then (pySplit1 line).length == 2
  else if strStarts (strL ("CommitDate: ")) line then (pySplit1 line).length == 2
  else if strStarts (strL ("Commit: ")) line then
    match pySplit1 line with
    | [_, rest] => (pyRsplit1 rest).length == 2
    | _ => false
  else if strStarts (strL ("    ")) line then true
  else if strStarts (strL (" ")) line && !containsSub (strL ("changed, ")) line then false
  else if strStarts (strL (" ")) line && containsSub (strL ("changed, ")) line then
    (changesMatch line).isSome
  else true

/-! ## Exhaustive description of one loop step -/

/-- Case analysis of `processLine`: every successful step falls into
exactly one branch of the source's if-chain, and the lemma records the
guards that identify the branch together with the resulting state. -/
lemma processLine_shape (st st' : PState) (line : Str)
    (h : processLine st line = some st') :
    (compactGuard (pySplit1 line) = true ∧ ∃ t m, pySplit1 line = [t, m] ∧
       st' = { entries := freeze st.entries st.output_line ++ [Entry.curRef],
               output_line := { commit := some t, message := some m },
               message_lines := st.message_lines, file_list := st.file_list }) ∨
    (compactGuard (pySplit1 line) = false ∧ strStarts (strL ("commit ")) line = true ∧
       st.output_line.nonEmpty = true ∧ ∃ r rest, applySeal st = some r ∧
       st' = { entries := freeze st.entries r ++ [Entry.det r],
               output_line := { emptyRecord with commit := some rest },
               message_lines := [], file_list := [] }) ∨
    (compactGuard (pySplit1 line) = false ∧ strStarts (strL ("commit ")) line = true ∧
       st.output_line.nonEmpty = false ∧ ∃ rest,
       st' = { st with output_line := { st.output_line with commit := some rest } }) ∨
    (compactGuard (pySplit1 line) = false ∧ strStarts (strL ("commit ")) line = false ∧
       strStarts (strL ("Merge: ")) line = true ∧ ∃ rest,
       st' = { st with output_line := { st.output_line with merge := some rest } }) ∨
    (compactGuard (pySplit1 line) = false ∧ strStarts (strL ("commit ")) line = false ∧
       strStarts (strL ("Author: ")) line = true ∧ ∃ a e,
       st' = { st with output_line := { st.output_line with
                 author := some a, author_email := some e } }) ∨
    (compactGuard (pySplit1 line) = false ∧ strStarts (strL ("commit ")) line = false ∧
       strStarts (strL ("Date: ")) line = true ∧ ∃ d,
       st' = { st with output_line := { st.output_line with date := some d } }) ∨
    (compactGuard (pySplit1 line) = false ∧ strStarts (strL ("commit ")) line = false ∧
       strStarts (strL ("AuthorDate: ")) line = true ∧ ∃ d,
       st' = { st with output_line := { st.output_line with date := some d } }) ∨
    (compactGuard (pySplit1 line) = false ∧ strStarts (strL ("commit ")) line = false ∧
       strStarts (strL ("CommitDate: ")) line = true ∧ ∃ d,
       st' = { st with output_line := { st.output_line with commit_by_date := some d } }) ∨
    (compactGuard (pySplit1 line) = false ∧ strStarts (strL ("commit ")) line = false ∧
       strStarts (strL ("Commit: ")) line = true ∧ ∃ a e,
       st' = { st with output_line := { st.output_line with
                 commit_by := some a, commit_by_email := some e } }) ∨
    (compactGuard (pySplit1 line) = false ∧ strStarts (strL ("commit ")) line = false ∧
       strStarts (strL ("    ")) line = true ∧
       st' = { st with message_lines := st.message_lines ++ [pyStrip line] }) ∨
    (compactGuard (pySplit1 line) = false ∧ strStarts (strL ("commit ")) line = false ∧
       (strStarts (strL (" ")) line && !containsSub (strL ("changed, ")) line) = true ∧
       st' = { st with file_list :=
                 st.file_list ++ [pyStrip (line.takeWhile (fun c => !(c == '|')))] }) ∨
    (compactGuard (pySplit1 line) = false ∧ strStarts (strL ("commit ")) line = false ∧
       (strStarts (strL (" ")) line && containsSub (strL ("changed, ")) line) = true ∧ ∃ s1,
       st' = { st with output_line := { st.output_line with stats := some s1 } }) ∨
    (compactGuard (pySplit1 line) = false ∧ strStarts (strL ("commit ")) line = false ∧
       st' = st) := by
  cases g0 : compactGuard (pySplit1 line) with
  | true =>
    left
    refine ⟨rfl, ?_⟩
    simp only [processLine, g0, if_true] at h
    cases hll : pySplit1 line with
    | nil => rw [hll] at h; simp at h
    | cons t rest =>
      cases rest with
      | nil => rw [hll] at h; simp at h
      | cons m rest2 =>
        cases rest2 with
        | nil =>
          rw [hll] at h
          exact ⟨t, m, rfl, (Option.some.inj h).symm⟩
        | cons x xs => rw [hll] at h; simp at h
  | false =>
    cases g1 : strStarts (strL ("commit ")) line with
    | true =>
      simp only [processLine, g0, g1, Bool.false_eq_true, if_false, if_true] at h
      cases gne : st.output_line.nonEmpty with
      | true =>
        rw [gne] at h
        simp only [if_true] at h
        right; left
        refine ⟨rfl, rfl, rfl, ?_⟩
        cases has : applySeal st with
        | none => rw [has] at h; simp at h
        | some r =>
          rw [has] at h
          cases hll : pySplit1 line with
          | nil => rw [hll] at h; simp at h
          | cons a rest =>
            cases rest with
            | nil => rw [hll] at h; simp at h
            | cons b rest2 =>
              cases rest2 with
              | nil =>
                rw [hll] at h
                exact ⟨r, b, rfl, (Option.some.inj h).symm⟩
              | cons x xs => rw [hll] at h; simp at h
      | false =>
        rw [gne] at h
        simp only [Bool.false_eq_true, if_false] at h
        right; right; left
        refine ⟨rfl, rfl, rfl, ?_⟩
        cases hll : pySplit1 line with
        | nil => rw [hll] at h; simp at h
        | cons a rest =>
          cases rest with
          | nil => rw [hll] at h; simp at h
          | cons b rest2 =>
            cases rest2 with
            | nil =>
              rw [hll] at h
              exact ⟨b, (Option.some.inj h).symm⟩
            | cons x xs => rw [hll] at h; simp at h
    | false =>
      simp only [processLine, g0, g1, Bool.false_eq_true, if_false] at h
      cases g2 : strStarts (strL ("Merge: ")) line with
      | true =>
        rw [g2] at h
        simp only [if_true] at h
        right; right; right; left
        refine ⟨rfl, rfl, rfl, ?_⟩
        cases hll : pySplit1 line with
        | nil => rw [hll] at h; simp at h
        | cons a rest =>
          cases rest with
          | nil => rw [hll] at h; simp at h
          | cons b rest2 =>
            cases rest2 with
            | nil =>
              rw [hll] at h
              exact ⟨b, (Option.some.inj h).symm⟩
            | cons x xs => rw [hll] at h; simp at h
      | false =>
        rw [g2] at h
        simp only [Bool.false_eq_true, if_false] at h
        cases g3 : strStarts (strL ("Author: ")) line with
        | true =>
          rw [g3] at h
          simp only [if_true] at h
          right; right; right; right; left
          refine ⟨rfl, rfl, rfl, ?_⟩
          cases hll : pySplit1 line with
          | nil => rw [hll] at h; simp at h
          | cons a rest =>
            cases rest with
            | nil => rw [hll] at h; simp at h
            | cons b rest2 =>
              cases rest2 with
              | nil =>
                rw [hll] at h
                dsimp only at h
                cases hrs : pyRsplit1 b with
                | nil => rw [hrs] at h; simp at h
                | cons n rest3 =>
                  cases rest3 with
                  | nil => rw [hrs] at h; simp at h
                  | cons e2 rest4 =>
                    cases rest4 with
                    | nil =>
                      rw [hrs] at h
                      exact ⟨n, _, (Option.some.inj h).symm⟩
                    | cons x xs => rw [hrs] at h; simp at h
              | cons x xs => rw [hll] at h; simp at h
        | false =>
          rw [g3] at h
          simp only [Bool.false_eq_true, if_false] at h
          cases g4 : strStarts (strL ("Date: ")) line with
          | true =>
            rw [g4] at h
            simp only [if_true] at h
            right; right; right; right; right; left
            refine ⟨rfl, rfl, rfl, ?_⟩
            cases hll : pySplit1 line with
            | nil => rw [hll] at h; simp at h
            | cons a rest =>
              cases rest with
              | nil => rw [hll] at h; simp at h
              | cons b rest2 =>
                cases rest2 with
                | nil =>
                  rw [hll] at h
                  exact ⟨b, (Option.some.inj h).symm⟩
                | cons x xs => rw [hll] at h; simp at h
          | false =>
            rw [g4] at h
            simp only [Bool.false_eq_true, if_false] at h
            cases g5 : strStarts (strL ("AuthorDate: ")) line with
            | true =>
              rw [g5] at h
              simp only [if_true] at h
              right; right; right; right; right; right; left
              refine ⟨rfl, rfl, rfl, ?_⟩
              cases hll : pySplit1 line with
              | nil => rw [hll] at h; simp at h
              | cons a rest =>
                cases rest with
                | nil => rw [hll] at h; simp at h
                | cons b rest2 =>
                  cases rest2 with
                  | nil =>
                    rw [hll] at h
                    exact ⟨b, (Option.some.inj h).symm⟩
                  | cons x xs => rw [hll] at h; simp at h
            | false =>
              rw [g5] at h
              simp only [Bool.false_eq_true, if_false] at h
              cases g6 : strStarts (strL ("CommitDate: ")) line with
              | true =>
                rw [g6] at h
                simp only [if_true] at h
                right; right; right; right; right; right; right; left
                refine ⟨rfl, rfl, rfl, ?_⟩
                cases hll : pySplit1 line with
                | nil => rw [hll] at h; simp at h
                | cons a rest =>
                  cases rest with
                  | nil => rw [hll] at h; simp at h
                  | cons b rest2 =>
                    cases rest2 with
                    | nil =>
                      rw [hll] at h
                      exact ⟨b, (Option.some.inj h).symm⟩
                    | cons x xs => rw [hll] at h; simp at h
              | false =>
                rw [g6] at h
                simp only [Bool.false_eq_true, if_false] at h
                cases g7 : strStarts (strL ("Commit: ")) line with
                | true =>
                  rw [g7] at h
                  simp only [if_true] at h
                  right; right; right; right; right; right; right; right; left
                  refine ⟨rfl, rfl, rfl, ?_⟩
                  cases hll : pySplit1 line with
                  | nil => rw [hll] at h; simp at h
                  | cons a rest =>
                    cases rest with
                    | nil => rw [hll] at h; simp at h
                    | cons b rest2 =>
                      cases rest2 with
                      | nil =>
                        rw [hll] at h
                        dsimp only at h
                        cases hrs : pyRsplit1 b with
                        | nil => rw [hrs] at h; simp at h
                        | cons n rest3 =>
                          cases rest3 with
                          | nil => rw [hrs] at h; simp at h
                          | cons e2 rest4 =>
                            cases rest4 with
                            | nil =>
                              rw [hrs] at h
                              exact ⟨n, _, (Option.some.inj h).symm⟩
                            | cons x xs => rw [hrs] at h; simp at h
                      | cons x xs => rw [hll] at h; simp at h
                | false =>
                  rw [g7] at h
                  simp only [Bool.false_eq_true, if_false] at h
                  cases g8 : strStarts (strL ("    ")) line with
                  | true =>
                    rw [g8] at h
                    simp only [if_true] at h
                    right; right; right; right; right; right; right; right; right; left
                    exact ⟨rfl, rfl, rfl, (Option.some.inj h).symm⟩
                  | false =>
                    rw [g8] at h
                    simp only [Bool.false_eq_true, if_false] at h
                    cases g9 : (strStarts (strL (" ")) line && !containsSub (strL ("changed, ")) line) with
                    | true =>
                      rw [g9] at h
                      simp only [if_true] at h
                      right; right; right; right; right; right; right; right; right; right; left
                      exact ⟨rfl, rfl, rfl, (Option.some.inj h).symm⟩
                    | false =>
                      rw [g9] at h
                      simp only [Bool.false_eq_true, if_false] at h
                      cases g10 : (strStarts (strL (" ")) line && containsSub (strL ("changed, ")) line) with
                      | true =>
                        rw [g10] at h
                        simp only [if_true] at h
                        right; right; right; right; right; right; right; right; right; right; right; left
                        refine ⟨rfl, rfl, rfl, ?_⟩
                        cases hcm : changesMatch line with
                        | none => rw [hcm] at h; simp at h
                        | some v =>
                          rw [hcm] at h
                          exact ⟨_, (Option.some.inj h).symm⟩
                      | false =>
                        rw [g10] at h
                        simp only [Bool.false_eq_true, if_false] at h
                        right; right; right; right; right; right; right; right; right; right; right; right
                        exact ⟨rfl, rfl, (Option.some.inj h).symm⟩

/-! ## Invariant plumbing -/

/-- Every detached record in `raw_output` has a commit key. -/
def entriesCommitOK (es : List Entry) : Prop :=
  ∀ r : Record, Entry.det r ∈ es → r.commit.isSome = true

/-- No record in `raw_output` has a merge key. -/
def entriesMergeNone (es : List Entry) : Prop :=
  ∀ r : Record, Entry.det r ∈ es → r.merge = none

/-- Detaching entries at value `r` preserves any per-record property
that holds of the detached records and of `r`. -/
lemma freeze_pres (P : Record → Prop) (es : List Entry) (r : Record)
    (hes : ∀ x : Record, Entry.det x ∈ es → P x) (hr : P r) :
    ∀ x : Record, Entry.det x ∈ freeze es r → P x := by
  intro x hx
  unfold freeze at hx
  rw [List.mem_map] at hx
  obtain ⟨e, he, heq⟩ := hx
  cases e with
  | det y =>
    have hyx : y = x := Entry.det.inj heq
    exact hyx ▸ hes y he
  | curRef =>
    have hrx : r = x := Entry.det.inj heq
    exact hrx ▸ hr

/-- Reading `raw_output` preserves any per-record property that holds
of the detached records and of the current dict value. -/
lemma resolve_pres (P : Record → Prop) (es : List Entry) (r : Record)
    (hes : ∀ x : Record, Entry.det x ∈ es → P x) (hr : P r) :
    ∀ x ∈ resolveEntries es r, P x := by
  intro x hx
  unfold resolveEntries at hx
  rw [List.mem_map] at hx
  obtain ⟨e, he, heq⟩ := hx
  cases e with
  | det y => exact heq ▸ hes y he
  | curRef => exact heq ▸ hr

/-- Sealing only touches the message and stats keys. -/
lemma applySeal_fields (st : PState) (r : Record) (h : applySeal st = some r) :
    r.commit = st.output_line.commit ∧ r.merge = st.output_line.merge := by
  simp only [applySeal] at h
  split at h
  · rw [← Option.some.inj h]
    constructor <;> (split <;> rfl)
  · split at h
    · rw [← Option.some.inj h]
      constructor <;> (split <;> rfl)
    · exact Option.noConfusion h

/-- A dict with a commit key is non-empty. -/
lemma nonEmpty_of_commit (r : Record) (h : r.commit.isSome = true) : r.nonEmpty = true := by
  unfold Record.nonEmpty
  rw [h]
  rfl

/-- Once the current dict has a commit key and every detached record
has one, a further line keeps it so. -/
lemma step_commit_inv (st st' : PState) (line : Str) (h : processLine st line = some st')
    (hcur : st.output_line.commit.isSome = true) (hes : entriesCommitOK st.entries) :
    st'.output_line.commit.isSome = true ∧ entriesCommitOK st'.entries := by
  rcases processLine_shape st st' line h with
    c1 | c2 | c3 | c4 | c5 | c6 | c7 | c8 | c9 | c10 | c11 | c12 | c13
  · obtain ⟨_, t, m, _, rfl⟩ := c1
    refine ⟨rfl, ?_⟩
    intro x hx
    rw [List.mem_append] at hx
    rcases hx with hx | hx
    · exact freeze_pres (fun q => q.commit.isSome = true) st.entries st.output_line hes hcur x hx
    · simp at hx
  · obtain ⟨_, _, _, r, rest, hseal, rfl⟩ := c2
    have hc : r.commit.isSome = true := by
      rw [(applySeal_fields st r hseal).1]; exact hcur
    refine ⟨rfl, ?_⟩
    intro x hx
    rw [List.mem_append] at hx
    rcases hx with hx | hx
    · exact freeze_pres (fun q => q.commit.isSome = true) st.entries r hes hc x hx
    · simp at hx
      exact hx ▸ hc
  · obtain ⟨_, _, _, rest, rfl⟩ := c3
    exact ⟨rfl, hes⟩
  · obtain ⟨_, _, _, rest, rfl⟩ := c4
    exact ⟨hcur, hes⟩
  · obtain ⟨_, _, _, a, e, rfl⟩ := c5
    exact ⟨hcur, hes⟩
  · obtain ⟨_, _, _, d, rfl⟩ := c6
    exact ⟨hcur, hes⟩
  · obtain ⟨_, _, _, d, rfl⟩ := c7
    exact ⟨hcur, hes⟩
  · obtain ⟨_, _, _, d, rfl⟩ := c8
    exact ⟨hcur, hes⟩
  · obtain ⟨_, _, _, a, e, rfl⟩ := c9
    exact ⟨hcur, hes⟩
  · obtain ⟨_, _, _, rfl⟩ := c10
    exact ⟨hcur, hes⟩
  · obtain ⟨_, _, _, rfl⟩ := c11
    exact ⟨hcur, hes⟩
  · obtain ⟨_, _, _, s1, rfl⟩ := c12
    exact ⟨hcur, hes⟩
  · obtain ⟨_, _, rfl⟩ := c13
    exact ⟨hcur, hes⟩

/-- A line that is neither a boundary nor a field-writing header leaves
`raw_output` and `output_line` untouched. -/
lemma step_unchanged (st st' : PState) (line : Str) (h : processLine st line = some st')
    (hb : isBoundaryLine line = false) (hh : isHeaderLine line = false) :
    st'.entries = st.entries ∧ st'.output_line = st.output_line := by
  unfold isBoundaryLine at hb
  rw [Bool.or_eq_false_iff] at hb
  unfold isHeaderLine at hh
  repeat rw [Bool.or_eq_false_iff] at hh
  obtain ⟨⟨⟨⟨⟨⟨hM, hA⟩, hD⟩, hAD⟩, hCD⟩, hC⟩, hS⟩ := hh
  rcases processLine_shape st st' line h with
    c1 | c2 | c3 | c4 | c5 | c6 | c7 | c8 | c9 | c10 | c11 | c12 | c13
  · exact absurd c1.1 (by rw [hb.1]; simp)
  · exact absurd c2.2.1 (by rw [hb.2]; simp)
  · exact absurd c3.2.1 (by rw [hb.2]; simp)
  · exact absurd c4.2.2.1 (by rw [hM]; simp)
  · exact absurd c5.2.2.1 (by rw [hA]; simp)
  · exact absurd c6.2.2.1 (by rw [hD]; simp)
  · exact absurd c7.2.2.1 (by rw [hAD]; simp)
  · exact absurd c8.2.2.1 (by rw [hCD]; simp)
  · exact absurd c9.2.2.1 (by rw [hC]; simp)
  · obtain ⟨_, _, _, rfl⟩ := c10
    exact ⟨rfl, rfl⟩
  · obtain ⟨_, _, _, rfl⟩ := c11
    exact ⟨rfl, rfl⟩
  · exact absurd c12.2.2.1 (by rw [hS]; simp)
  · obtain ⟨_, _, rfl⟩ := c13
    exact ⟨rfl, rfl⟩

/-- Processing a boundary line from the pristine state establishes the
commit invariant. -/
lemma step_boundary_empty (st st' : PState) (line : Str) (h : processLine st line = some st')
    (hents : st.entries = []) (hcur : st.output_line = emptyRecord)
    (hb : isBoundaryLine line = true) :
    st'.output_line.commit.isSome = true ∧ entriesCommitOK st'.entries := by
  unfold isBoundaryLine at hb
  rcases processLine_shape st st' line h with
    c1 | c2 | c3 | c4 | c5 | c6 | c7 | c8 | c9 | c10 | c11 | c12 | c13
  · obtain ⟨_, t, m, _, rfl⟩ := c1
    refine ⟨rfl, ?_⟩
    intro x hx
    rw [hents] at hx
    simp [freeze] at hx
  · obtain ⟨_, _, hne, _⟩ := c2
    rw [hcur] at hne
    exact absurd hne (by decide)
  · obtain ⟨_, _, _, rest, rfl⟩ := c3
    refine ⟨rfl, ?_⟩
    intro x hx
    rw [hents] at hx
    simp at hx
  · obtain ⟨hg0, hg1, _⟩ := c4
    rw [hg0, hg1] at hb
    simp at hb
  · obtain ⟨hg0, hg1, _⟩ := c5
    rw [hg0, hg1] at hb
    simp at hb
  · obtain ⟨hg0, hg1, _⟩ := c6
    rw [hg0, hg1] at hb
    simp at hb
  · obtain ⟨hg0, hg1, _⟩ := c7
    rw [hg0, hg1] at hb
    simp at hb
  · obtain ⟨hg0, hg1, _⟩ := c8
    rw [hg0, hg1] at hb
    simp at hb
  · obtain ⟨hg0, hg1, _⟩ := c9
    rw [hg0, hg1] at hb
    simp at hb
  · obtain ⟨hg0, hg1, _⟩ := c10
    rw [hg0, hg1] at hb
    simp at hb
  · obtain ⟨hg0, hg1, _⟩ := c11
    rw [hg0, hg1] at hb
    simp at hb
  · obtain ⟨hg0, hg1, _⟩ := c12
    rw [hg0, hg1] at hb
    simp at hb
  · obtain ⟨hg0, hg1, _⟩ := c13
    rw [hg0, hg1] at hb
    simp at hb

/-- Folding any further lines preserves the commit invariant. -/
lemma run_commit_inv (ls : List Str) : ∀ st st', parseLines st ls = some st' →
    st.output_line.commit.isSome = true → entriesCommitOK st.entries →
    st'.output_line.commit.isSome = true ∧ entriesCommitOK st'.entries := by
  induction ls with
  | nil =>
    intro st st' h hc he
    exact (Option.some.inj h) ▸ ⟨hc, he⟩
  | cons l ls ih =>
    intro st st' h hc he
    cases hp : processLine st l with
    | none =>
      simp only [parseLines, hp] at h
      exact Option.noConfusion h
    | some st2 =>
      simp only [parseLines, hp] at h
      obtain ⟨hc2, he2⟩ := step_commit_inv st st2 l hp hc he
      exact ih st2 st' h hc2 he2

/-- Folding the whole input from the pristine state: either no boundary
line ever occurred (and nothing was opened or emitted), or the commit
invariant holds at the end. -/
lemma run_phase1_commit (ls : List Str) : ∀ st st', parseLines st ls = some st' →
    st.entries = [] → st.output_line = emptyRecord → noOrphanHeaders ls = true →
    (st'.entries = [] ∧ st'.output_line = emptyRecord) ∨
    (st'.output_line.commit.isSome = true ∧ entriesCommitOK st'.entries) := by
  induction ls with
  | nil =>
    intro st st' h he hc _
    exact Or.inl ((Option.some.inj h) ▸ ⟨he, hc⟩)
  | cons l ls ih =>
    intro st st' h he hc hno
    cases hp : processLine st l with
    | none =>
      simp only [parseLines, hp] at h
      exact Option.noConfusion h
    | some st2 =>
      simp only [parseLines, hp] at h
      cases hb : isBoundaryLine l with
      | true =>
        have h2 := step_boundary_empty st st2 l hp he hc hb
        exact Or.inr (run_commit_inv ls st2 st' h h2.1 h2.2)
      | false =>
        cases hh : isHeaderLine l with
        | true =>
          simp only [noOrphanHeaders, hb, hh, Bool.false_eq_true, if_false, if_true] at hno
        | false =>
          have h2 := step_unchanged st st2 l hp hb hh
          have hno2 : noOrphanHeaders ls = true := by
            simpa only [noOrphanHeaders, hb, hh, Bool.false_eq_true, if_false] using hno
          exact ih st2 st' h (h2.1.trans he) (h2.2.trans hc) hno2

/-- Reading out the final state preserves the commit invariant. -/
lemma finalize_commitOK (st : PState) (out : List Record) (h : finalize st = some out)
    (hinv : (st.entries = [] ∧ st.output_line = emptyRecord) ∨
            (st.output_line.commit.isSome = true ∧ entriesCommitOK st.entries)) :
    ∀ r ∈ out, r.commit.isSome = true := by
  rcases hinv with ⟨he, hc⟩ | ⟨hc, hes⟩
  · unfold finalize at h
    rw [he, hc] at h
    have hne : emptyRecord.nonEmpty = false := rfl
    simp only [hne, Bool.false_eq_true, if_false, resolveEntries, List.map_nil] at h
    rw [← Option.some.inj h]
    intro r hr
    simp at hr
  · unfold finalize at h
    rw [if_pos (nonEmpty_of_commit _ hc)] at h
    cases hs : applySeal st with
    | none =>
      rw [hs] at h
      exact Option.noConfusion h
    | some r =>
      rw [hs] at h
      have hr : r.commit.isSome = true := by
        rw [(applySeal_fields st r hs).1]; exact hc
      have hout : resolveEntries st.entries r ++ [r] = out := Option.some.inj h
      intro x hx
      rw [← hout, List.mem_append] at hx
      rcases hx with hx | hx
      · exact resolve_pres (fun q => q.commit.isSome = true) st.entries r hes hr x hx
      · simp at hx
        exact hx ▸ hr

/-- C2 amended: every record in the output has a commit key PROVIDED no
field-writing header line precedes the first boundary line; without
that proviso the invariant fails (see the counterexample), because a
header seen while no record is open populates a fresh dict that is
later emitted without a commit. -/
theorem c2_amended_commit_present (data : Str) (out : List Record)
    (hp : parse data = some out)
    (hno : noOrphanHeaders (splitlines data) = true) :
    ∀ r ∈ out, r.commit.isSome = true := by
  cases hd : hasData data with
  | false =>
    have h0 : parse data = some [] := by
      unfold parse
      rw [hd]
      rfl
    rw [h0] at hp
    rw [← Option.some.inj hp]
    intro r hr
    simp at hr
  | true =>
    unfold parse at hp
    rw [hd, if_pos rfl] at hp
    dsimp only at hp
    cases hrun : parseLines initState (splitlines data) with
    | none =>
      rw [hrun] at hp
      exact Option.noConfusion hp
    | some st =>
      rw [hrun] at hp
      dsimp only at hp
      cases hfin : finalize st with
      | none =>
        rw [hfin] at hp
        exact Option.noConfusion hp
      | some o2 =>
        rw [hfin] at hp
        have ho : o2 = out := by
          have h2 := Option.some.inj hp
          simpa [_process] using h2
        have hinv := run_phase1_commit (splitlines data) initState st hrun rfl rfl hno
        have hall := finalize_commitOK st o2 hfin hinv
        intro r hr
        exact hall r (by rw [ho]; exact hr)

/-- The record parse builds from `"commit abc"` and `"Author: A <a@b>"`. -/
def c2wRec : Record :=
  { commit := some (strL ("abc")), author := some (strL ("A")),
    author_email := some (strL ("a@b")) }

/-- C2 witness: the amended invariant applied to a concrete well-formed
input whose first line is a boundary. -/
theorem c2_witness : c2wRec.commit.isSome = true :=
  c2_amended_commit_present (strL ("commit abc\nAuthor: A <a@b>")) [c2wRec]
    (by decide) (by decide) c2wRec (by simp)

/-- A line that does not start with `"Merge: "` never writes the merge
key: the current dict and all output entries stay merge-free. -/
lemma step_merge_inv (st st' : PState) (line : Str) (h : processLine st line = some st')
    (hnm : strStarts (strL ("Merge: ")) line = false)
    (hcur : st.output_line.merge = none) (hes : entriesMergeNone st.entries) :
    st'.output_line.merge = none ∧ entriesMergeNone st'.entries := by
  rcases processLine_shape st st' line h with
    c1 | c2 | c3 | c4 | c5 | c6 | c7 | c8 | c9 | c10 | c11 | c12 | c13
  · obtain ⟨_, t, m, _, rfl⟩ := c1
    refine ⟨rfl, ?_⟩
    intro x hx
    rw [List.mem_append] at hx
    rcases hx with hx | hx
    · exact freeze_pres (fun q => q.merge = none) st.entries st.output_line hes hcur x hx
    · simp at hx
  · obtain ⟨_, _, _, r, rest, hseal, rfl⟩ := c2
    have hm : r.merge = none := by
      rw [(applySeal_fields st r hseal).2]; exact hcur
    refine ⟨rfl, ?_⟩
    intro x hx
    rw [List.mem_append] at hx
    rcases hx with hx | hx
    · exact freeze_pres (fun q => q.merge = none) st.entries r hes hm x hx
    · simp at hx
      exact hx ▸ hm
  · obtain ⟨_, _, _, rest, rfl⟩ := c3
    exact ⟨hcur, hes⟩
  · obtain ⟨_, _, hg, _⟩ := c4
    rw [hnm] at hg
    exact absurd hg (by simp)
  · obtain ⟨_, _, _, a, e, rfl⟩ := c5
    exact ⟨hcur, hes⟩
  · obtain ⟨_, _, _, d, rfl⟩ := c6
    exact ⟨hcur, hes⟩
  · obtain ⟨_, _, _, d, rfl⟩ := c7
    exact ⟨hcur, hes⟩
  · obtain ⟨_, _, _, d, rfl⟩ := c8
    exact ⟨hcur, hes⟩
  · obtain ⟨_, _, _, a, e, rfl⟩ := c9
    exact ⟨hcur, hes⟩
  · obtain ⟨_, _, _, rfl⟩ := c10
    exact ⟨hcur, hes⟩
  · obtain ⟨_, _, _, rfl⟩ := c11
    exact ⟨hcur, hes⟩
  · obtain ⟨_, _, _, s1, rfl⟩ := c12
    exact ⟨hcur, hes⟩
  · obtain ⟨_, _, rfl⟩ := c13
    exact ⟨hcur, hes⟩

/-- Folding lines none of which starts with `"Merge: "` keeps all
records merge-free. -/
lemma run_merge_inv (ls : List Str) : ∀ st st', parseLines st ls = some st' →
    (∀ l ∈ ls, strStarts (strL ("Merge: ")) l = false) →
    st.output_line.merge = none → entriesMergeNone st.entries →
    st'.output_line.merge = none ∧ entriesMergeNone st'.entries := by
  induction ls with
  | nil =>
    intro st st' h _ hc he
    exact (Option.some.inj h) ▸ ⟨hc, he⟩
  | cons l ls ih =>
    intro st st' h hno hc he
    cases hp : processLine st l with
    | none =>
      simp only [parseLines, hp] at h
      exact Option.noConfusion h
    | some st2 =>
      simp only [parseLines, hp] at h
      obtain ⟨hc2, he2⟩ := step_merge_inv st st2 l hp (hno l (by simp)) hc he
      exact ih st2 st' h (fun x hx => hno x (by simp [hx])) hc2 he2

/-- Reading out the final state keeps records merge-free. -/
lemma finalize_mergeOK (st : PState) (out : List Record) (h : finalize st = some out)
    (hc : st.output_line.merge = none) (hes : entriesMergeNone st.entries) :
    ∀ r ∈ out, r.merge = none := by
  unfold finalize at h
  split at h
  · cases hs : applySeal st with
    | none =>
      rw [hs] at h
      exact Option.noConfusion h
    | some r =>
      rw [hs] at h
      have hr : r.merge = none := by
        rw [(applySeal_fields st r hs).2]; exact hc
      have hout : resolveEntries st.entries r ++ [r] = out := Option.some.inj h
      intro x hx
      rw [← hout, List.mem_append] at hx
      rcases hx with hx | hx
      · exact resolve_pres (fun q => q.merge = none) st.entries r hes hr x hx
      · simp at hx
        exact hx ▸ hr
  · have hout : resolveEntries st.entries st.output_line = out := Option.some.inj h
    intro x hx
    rw [← hout] at hx
    exact resolve_pres (fun q => q.merge = none) st.entries st.output_line hes hc x hx

/-- C10 amended: the source stores the remainder of a `"Merge: "` line
under the dict key `"merge"` (not `"merge_parents"` as the claim says),
and when no line of the input starts with `"Merge: "` no record of the
output carries the merge key. -/
theorem c10_amended_merge_absent (data : Str) (out : List Record)
    (hp : parse data = some out)
    (hnm : ∀ l ∈ splitlines data, strStarts (strL ("Merge: ")) l = false) :
    ∀ r ∈ out, r.merge = none := by
  cases hd : hasData data with
  | false =>
    have h0 : parse data = some [] := by
      unfold parse
      rw [hd]
      rfl
    rw [h0] at hp
    rw [← Option.some.inj hp]
    intro r hr
    simp at hr
  | true =>
    unfold parse at hp
    rw [hd, if_pos rfl] at hp
    dsimp only at hp
    cases hrun : parseLines initState (splitlines data) with
    | none =>
      rw [hrun] at hp
      exact Option.noConfusion hp
    | some st =>
      rw [hrun] at hp
      dsimp only at hp
      cases hfin : finalize st with
      | none =>
        rw [hfin] at hp
        exact Option.noConfusion hp
      | some o2 =>
        rw [hfin] at hp
        have ho : o2 = out := by
          have h2 := Option.some.inj hp
          simpa [_process] using h2
        obtain ⟨hc, hes⟩ :=
          run_merge_inv (splitlines data) initState st hrun hnm rfl
            (fun x hx => by simp [initState] at hx)
        have hall := finalize_mergeOK st o2 hfin hc hes
        intro r hr
        exact hall r (by rw [ho]; exact hr)

/-- The record parse builds from `"commit abc"` and `"Date: today"`. -/
def c10wRec : Record := { commit := some (strL ("abc")), date := some (strL ("today")) }

/-- C10 witness: the amended statement applied to a concrete input with
no merge line. -/
theorem c10_witness : c10wRec.merge = none :=
  c10_amended_merge_absent (strL ("commit abc\nDate: today")) [c10wRec]
    (by decide) (by decide) c10wRec (by simp)

/-! ## C1: success on safe input -/

/-- A list of length two is literally a pair. -/
lemma list_len2 {α : Type} (xs : List α) (h : xs.length = 2) : ∃ a b, xs = [a, b] := by
  cases xs with
  | nil => simp at h
  | cons a r =>
    cases r with
    | nil => simp at h
    | cons b r2 =>
      cases r2 with
      | nil => exact ⟨a, b, rfl⟩
      | cons c r3 =>
        exfalso
        rw [List.length_cons, List.length_cons, List.length_cons] at h
        omega

/-- With no pending file paths, sealing cannot raise. -/
lemma applySeal_isSome_of_nil (st : PState) (hfl : st.file_list = []) :
    ∃ r, applySeal st = some r := by
  unfold applySeal
  rw [hfl]
  exact ⟨_, rfl⟩

/-- A safe line never raises, and it leaves the pending file-path
buffer empty if it was empty. -/
lemma step_safe (st : PState) (line : Str) (hsafe : lineSafe line = true)
    (hfl : st.file_list = []) :
    ∃ st', processLine st line = some st' ∧ st'.file_list = [] := by
  cases g0 : compactGuard (pySplit1 line) with
  | true =>
    simp only [lineSafe, g0, if_true, beq_iff_eq] at hsafe
    obtain ⟨t, m, hll⟩ := list_len2 (pySplit1 line) hsafe
    refine ⟨{ entries := freeze st.entries st.output_line ++ [Entry.curRef],
              output_line := { commit := some t, message := some m },
              message_lines := st.message_lines, file_list := st.file_list }, ?_, hfl⟩
    have g0h : compactGuard [t, m] = true := by rw [← hll]; exact g0
    simp [processLine, hll, g0h]
  | false =>
    cases g1 : strStarts (strL ("commit ")) line with
    | true =>
      simp only [lineSafe, g0, g1, Bool.false_eq_true, if_false, if_true, beq_iff_eq] at hsafe
      obtain ⟨a, b, hll⟩ := list_len2 (pySplit1 line) hsafe
      cases gne : st.output_line.nonEmpty with
      | true =>
        obtain ⟨r, hr⟩ := applySeal_isSome_of_nil st hfl
        refine ⟨{ entries := freeze st.entries r ++ [Entry.det r],
                  output_line := { emptyRecord with commit := some b },
                  message_lines := [], file_list := [] }, ?_, rfl⟩
        have g0h : compactGuard [a, b] = false := by rw [← hll]; exact g0
        simp [processLine, g0h, g1, gne, hll, hr]
      | false =>
        have g0h : compactGuard [a, b] = false := by rw [← hll]; exact g0
        refine ⟨{ st with output_line := { st.output_line with commit := some b } }, ?_, hfl⟩
        simp [processLine, g0h, g1, gne, hll]
    | false =>
      cases g2 : strStarts (strL ("Merge: ")) line with
      | true =>
        simp only [lineSafe, g0, g1, g2, Bool.false_eq_true, if_false, if_true, beq_iff_eq] at hsafe
        obtain ⟨a, b, hll⟩ := list_len2 (pySplit1 line) hsafe
        refine ⟨{ st with output_line := { st.output_line with merge := some b } }, ?_, hfl⟩
        have g0h : compactGuard [a, b] = false := by rw [← hll]; exact g0
        simp [processLine, g0h, g1, g2, hll]
      | false =>
        cases g3 : strStarts (strL ("Author: ")) line with
        | true =>
          simp only [lineSafe, g0, g1, g2, g3, Bool.false_eq_true, if_false, if_true] at hsafe
          cases hll : pySplit1 line with
          | nil => rw [hll] at hsafe; simp at hsafe
          | cons a r =>
            cases r with
            | nil => rw [hll] at hsafe; simp at hsafe
            | cons b r2 =>
              cases r2 with
              | nil =>
                rw [hll] at hsafe
                simp only [beq_iff_eq] at hsafe
                obtain ⟨n, e2, hrs⟩ := list_len2 (pyRsplit1 b) hsafe
                refine ⟨{ st with output_line := { st.output_line with
                            author := some n,
                            author_email := some (stripChar '>' (stripChar '<' e2)) } }, ?_, hfl⟩
                have g0h : compactGuard [a, b] = false := by rw [← hll]; exact g0
                simp [processLine, g0h, g1, g2, g3, hll, hrs]
              | cons c r3 => rw [hll] at hsafe; simp at hsafe
        | false =>
          cases g4 : strStarts (strL ("Date: ")) line with
          | true =>
            simp only [lineSafe, g0, g1, g2, g3, g4, Bool.false_eq_true, if_false, if_true,
              beq_iff_eq] at hsafe
            obtain ⟨a, b, hll⟩ := list_len2 (pySplit1 line) hsafe
            refine ⟨{ st with output_line := { st.output_line with date := some b } }, ?_, hfl⟩
            have g0h : compactGuard [a, b] = false := by rw [← hll]; exact g0
            simp [processLine, g0h, g1, g2, g3, g4, hll]
          | false =>
            cases g5 : strStarts (strL ("AuthorDate: ")) line with
            | true =>
              simp only [lineSafe, g0, g1, g2, g3, g4, g5, Bool.false_eq_true, if_false, if_true,
                beq_iff_eq] at hsafe
              obtain ⟨a, b, hll⟩ := list_len2 (pySplit1 line) hsafe
              refine ⟨{ st with output_line := { st.output_line with date := some b } }, ?_, hfl⟩
              have g0h : compactGuard [a, b] = false := by rw [← hll]; exact g0
              simp [processLine, g0h, g1, g2, g3, g4, g5, hll]
            | false =>
              cases g6 : strStarts (strL ("CommitDate: ")) line with
              | true =>
                simp only [lineSafe, g0, g1, g2, g3, g4, g5, g6, Bool.false_eq_true, if_false,
                  if_true, beq_iff_eq] at hsafe
                obtain ⟨a, b, hll⟩ := list_len2 (pySplit1 line) hsafe
                refine ⟨{ st with output_line :=
                            { st.output_line with commit_by_date := some b } }, ?_, hfl⟩
                have g0h : compactGuard [a, b] = false := by rw [← hll]; exact g0
                simp [processLine, g0h, g1, g2, g3, g4, g5, g6, hll]
              | false =>
                cases g7 : strStarts (strL ("Commit: ")) line with
                | true =>
                  simp only [lineSafe, g0, g1, g2, g3, g4, g5, g6, g7, Bool.false_eq_true,
                    if_false, if_true] at hsafe
                  cases hll : pySplit1 line with
                  | nil => rw [hll] at hsafe; simp at hsafe
                  | cons a r =>
                    cases r with
                    | nil => rw [hll] at hsafe; simp at hsafe
                    | cons b r2 =>
                      cases r2 with
                      | nil =>
                        rw [hll] at hsafe
                        simp only [beq_iff_eq] at hsafe
                        obtain ⟨n, e2, hrs⟩ := list_len2 (pyRsplit1 b) hsafe
                        refine ⟨{ st with output_line := { st.output_line with
                                    commit_by := some n,
                                    commit_by_email :=
                                      some (stripChar '>' (stripChar '<' e2)) } }, ?_, hfl⟩
                        have g0h : compactGuard [a, b] = false := by rw [← hll]; exact g0
                        simp [processLine, g0h, g1, g2, g3, g4, g5, g6, g7, hll, hrs]
                      | cons c r3 => rw [hll] at hsafe; simp at hsafe
                | false =>
                  cases g8 : strStarts (strL ("    ")) line with
                  | true =>
                    refine ⟨{ st with message_lines :=
                                st.message_lines ++ [pyStrip line] }, ?_, hfl⟩
                    simp [processLine, g0, g1, g2, g3, g4, g5, g6, g7, g8]
                  | false =>
                    cases g9 : (strStarts (strL (" ")) line &&
                        !containsSub (strL ("changed, ")) line) with
                    | true =>
                      simp only [lineSafe, g0, g1, g2, g3, g4, g5, g6, g7, g8, g9,
                        Bool.false_eq_true, if_false, if_true] at hsafe
                    | false =>
                      cases g10 : (strStarts (strL (" ")) line &&
                          containsSub (strL ("changed, ")) line) with
                      | true =>
                        simp only [lineSafe, g0, g1, g2, g3, g4, g5, g6, g7, g8, g9, g10,
                          Bool.false_eq_true, if_false, if_true] at hsafe
                        cases hcm : changesMatch line with
                        | none => rw [hcm] at hsafe; simp at hsafe
                        | some v =>
                          obtain ⟨files, insv, delv⟩ := v
                          refine ⟨{ st with output_line := { st.output_line with stats := some {
                                      files_changed := if files.isEmpty then strL ("0") else files,
                                      insertions := if insv.isEmpty then strL ("0") else insv,
                                      deletions := match delv with
                                                   | some d => if d.isEmpty then strL ("0") else d
                                                   | none => strL ("0"),
                                      files := [] } } }, ?_, hfl⟩
                          simp [processLine, g0, g1, g2, g3, g4, g5, g6, g7, g8, g9, g10, hcm]
                          cases delv <;> rfl
                      | false =>
                        refine ⟨st, ?_, hfl⟩
                        simp [processLine, g0, g1, g2, g3, g4, g5, g6, g7, g8, g9, g10]

/-- Folding safe lines never raises and keeps the file buffer empty. -/
lemma run_safe (ls : List Str) : ∀ st : PState, st.file_list = [] →
    (∀ l ∈ ls, lineSafe l = true) →
    ∃ st', parseLines st ls = some st' ∧ st'.file_list = [] := by
  induction ls with
  | nil =>
    intro st hfl _
    exact ⟨st, rfl, hfl⟩
  | cons l ls ih =>
    intro st hfl hs
    obtain ⟨st2, hp, hfl2⟩ := step_safe st l (hs l (by simp)) hfl
    obtain ⟨st', hrun, hfl3⟩ := ih st2 hfl2 (fun x hx => hs x (by simp [hx]))
    refine ⟨st', ?_, hfl3⟩
    simp only [parseLines, hp]
    exact hrun

/-- With no pending file paths, the final flush never raises. -/
lemma finalize_isSome (st : PState) (hfl : st.file_list = []) :
    ∃ out, finalize st = some out := by
  unfold finalize
  cases gne : st.output_line.nonEmpty with
  | true =>
    rw [if_pos rfl]
    obtain ⟨r, hr⟩ := applySeal_isSome_of_nil st hfl
    rw [hr]
    exact ⟨_, rfl⟩
  | false =>
    simp only [gne, Bool.false_eq_true, if_false]
    exact ⟨_, rfl⟩

/-- C1 amended: parse returns a record sequence without raising
PROVIDED every line is safe — classifiable lines carry the payload the
code subscripts (a compact line has a message after the hash, boundary
and header lines have a remainder, identity lines split into name and
email, summary lines match the stats pattern) and no per-file stat
lines occur.  Without the proviso parse can raise (see the
counterexample), so it is not exception-free on arbitrary input. -/
theorem c1_amended_safe (data : Str)
    (hs : ∀ l ∈ splitlines data, lineSafe l = true) :
    (parse data).isSome = true := by
  cases hd : hasData data with
  | false =>
    have h0 : parse data = some [] := by
      unfold parse
      rw [hd]
      rfl
    rw [h0]
    rfl
  | true =>
    obtain ⟨st', hrun, hfl⟩ := run_safe (splitlines data) initState rfl hs
    obtain ⟨o, ho⟩ := finalize_isSome st' hfl
    unfold parse
    rw [hd, if_pos rfl]
    dsimp only
    rw [hrun]
    dsimp only
    rw [ho]
    rfl

/-- C1 witness: a concrete five-line safe input parses successfully. -/
theorem c1_witness :
    (parse (strL ("commit abc\nAuthor: A <a@b>\nDate: today\n\n    hello world"))).isSome = true :=
  c1_amended_safe (strL ("commit abc\nAuthor: A <a@b>\nDate: today\n\n    hello world"))
    (by decide)

end GitLog
